import Mathlib

/-!
# Verification of the This-Day-in-History door's core pipeline

Shallow embedding of the Go sources of `robbiew/This-Day-in-History-Door`:

* the rune-aware word wrapper `wrapText` and the row-fitting loop of
  `RenderEvents` (`internal/terminal`, also duplicated in `main.go`);
* the era-based event selector `selectEventsByEra` and the strategy
  dispatch of `generateEventList` (`main.go`);
* the retrying feed client `FetchOnThisDay` with its on-disk cache and
  the backoff sleeper `sleepContext` (`internal/wikimedia/client.go`).

Strings are modelled as `List Char`: Go's `[]rune(s)` conversion makes the
rune (Unicode code point) the unit in which the wrapper measures text, and
`Char` is exactly a Unicode scalar value.  Go `int` values (years, widths)
are modelled as `Int`; none of the verified code paths overflow 64 bits.

Randomness (`rand.Shuffle`) is modelled by an explicit oracle argument: a
function from a call-site index and a list to a list, so that theorems can
quantify over every possible shuffle outcome and counterexamples can pick a
concrete one.  JSON parsing (`encoding/json`) and the operating system
(network, clock, file system) are likewise oracle parameters.
-/

/-- `HistoricalEvent` / `wikimedia.Event` / `terminal.Event`: a year (Go
`int`, may be negative for BCE) and a free-form text. -/
structure Event where
  year : Int
  text : List Char
deriving DecidableEq, Repr, Inhabited

/-! ## Go `unicode.IsSpace` and `strings.Fields` / `strings.TrimSpace` -/

/-- Go's `unicode.IsSpace`: the Unicode `White_Space` property (tab, line
feed, vertical tab, form feed, carriage return, space, NEL, NBSP, Ogham
space mark, the U+2000-U+200A spaces, line/paragraph separator, narrow
no-break space, medium mathematical space, ideographic space).  This is the
set tested by `strings.Fields` and `strings.TrimSpace`. -/
def goIsSpace (c : Char) : Bool :=
  let n := c.toNat
  n == 0x9 || n == 0xa || n == 0xb || n == 0xc || n == 0xd || n == 0x20 ||
  n == 0x85 || n == 0xa0 || n == 0x1680 ||
  decide (0x2000 ≤ n ∧ n ≤ 0x200a) ||
  n == 0x2028 || n == 0x2029 || n == 0x202f || n == 0x205f || n == 0x3000

/-- Helper for `goFields`: accumulates the current word (reversed) while
scanning the input. -/
def goFieldsAux : List Char → List Char → List (List Char)
  | [], cur => if cur = [] then [] else [cur.reverse]
  | c :: rest, cur =>
    if goIsSpace c then
      if cur = [] then goFieldsAux rest []
      else cur.reverse :: goFieldsAux rest []
    else goFieldsAux rest (c :: cur)

/-- Go's `strings.Fields`: split around runs of white space, dropping empty
pieces. -/
def goFields (s : List Char) : List (List Char) :=
  goFieldsAux s []

/-- Go's `strings.TrimSpace`: drop leading and trailing white space. -/
def goTrimSpace (s : List Char) : List Char :=
  ((s.dropWhile goIsSpace).reverse.dropWhile goIsSpace).reverse

/-! ## `wrapText` (corrected, rune-aware variant)

From `internal/terminal` (src/unnamed/part_003, lines 70–122) and
identically `main.go` lines 319–385.  The Go code converts the text to
`[]rune` and measures every length in runes. -/

/-- The over-long-word truncation of `wrapText`: `wr[:maxWidth-3] + "..."`
when `maxWidth > 3`, else `wr[:maxWidth]`.  Only ever applied to a word
strictly longer than `maxWidth`. -/
def truncWord (w : List Char) (maxWidth : Nat) : List Char :=
  if maxWidth > 3 then w.take (maxWidth - 3) ++ ['.', '.', '.']
  else w.take maxWidth

/-- One iteration of `wrapText`'s `for _, word := range words` loop.  The
state is the pair (flushed lines, current line). -/
def wrapStep (maxWidth : Nat) (st : List (List Char) × List Char)
    (w : List Char) : List (List Char) × List Char :=
  let lines := st.1
  let current := st.2
  if current = [] then
    if w.length ≤ maxWidth then (lines, w)
    else (lines ++ [truncWord w maxWidth], [])
  else if current.length + 1 + w.length ≤ maxWidth then
    (lines, current ++ [' '] ++ w)
  else if w.length ≤ maxWidth then (lines ++ [current], w)
  else (lines ++ [current, truncWord w maxWidth], [])

/-- `wrapText` breaks `text` into lines of at most `maxWidth` runes
(`internal/terminal.wrapText`; the identical function appears in the
corrected `main.go`). -/
def wrapText (text : List Char) (maxWidth : Int) : List (List Char) :=
  if maxWidth ≤ 0 then [text]
  else if (text.length : Int) ≤ maxWidth then [text]
  else
    let words := goFields text
    if words = [] then [[]]
    else
      let st := words.foldl (wrapStep maxWidth.toNat) ([], [])
      let lines := if st.2 = [] then st.1 else st.1 ++ [st.2]
      if lines = [] then [[]] else lines

example : wrapText "Moon landing".toList 65 = ["Moon landing".toList] := by decide
example : wrapText "ab cd ef".toList 5 = ["ab cd".toList, "ef".toList] := by decide
example : wrapText "abcdefgh".toList 5 = ["ab...".toList] := by decide
example : wrapText "abcdefgh".toList 3 = ["abc".toList] := by decide
example : wrapText "".toList 0 = [[]] := by decide
example : wrapText "   ".toList 2 = [[]] := by decide

/-! ## Layout engine: the Dynamic Event Fitting loop of `RenderEvents`

From `internal/terminal.RenderEvents` (src/unnamed/part_003, lines 141–157);
the same loop with the same constants appears in the legacy
`main.go` `generateEventList` (lines 1344–1365). -/

/-- `maxContentRows = 12` (rows 8–19). -/
def maxContentRows : Nat := 12

/-- `prefixDisplayLength = 10` (`" YYYY <:> "`). -/
def prefixDisplayLength : Int := 10

/-- `maxLineLength = 75 - prefixDisplayLength`. -/
def maxLineLength : Int := 75 - prefixDisplayLength

/-- Rows one event consumes: wrapped lines of its trimmed text plus one
blank separator row. -/
def eventRows (e : Event) : Nat :=
  (wrapText (goTrimSpace e.text) maxLineLength).length + 1

/-- Total rows a list of events consumes. -/
def rowsUsed (sel : List Event) : Nat :=
  (sel.map eventRows).sum

/-- The fitting loop: accept events in order while the running row total
stays within `maxContentRows` and fewer than 5 events are accepted; the
first event failing the test breaks the loop.  `used`/`cnt` are the loop's
`totalRowsUsed` and `len(selectedEvents)`. -/
def fitAux : List Event → Nat → Nat → List Event
  | [], _, _ => []
  | e :: rest, used, cnt =>
    if used + eventRows e ≤ maxContentRows ∧ cnt < 5 then
      e :: fitAux rest (used + eventRows e) (cnt + 1)
    else []

/-- The list `selectedEvents` computed by `RenderEvents` before drawing. -/
def fitEvents (events : List Event) : List Event :=
  fitAux events 0 0

example : fitEvents [⟨1969, "Moon landing".toList⟩] = [⟨1969, "Moon landing".toList⟩] := by
  decide
example : eventRows ⟨1969, "Moon landing".toList⟩ = 2 := by decide

/-! ## Event selector: `selectEventsByEra` (`main.go` lines 390–472)

The Go code keys deduplication on `fmt.Sprintf("%d|%s", year, text)`.  The
decimal rendering of an `int` never contains `'|'`, so that string is in
bijection with the pair `(year, text)`; the key is modelled as the pair. -/

/-- Dedup key of an event: the `(year, text)` pair. -/
abbrev Key := Int × List Char

/-- `keyFor` from `selectEventsByEra`. -/
def keyFor (e : Event) : Key := (e.year, e.text)

/-- `eraDef`: a named year range with a selection quota. -/
structure EraDef where
  name : String
  min : Int
  max : Int
  quota : Nat

/-- The five fixed eras of `selectEventsByEra`. -/
def eras : List EraDef :=
  [⟨"Ancient", 1, 500, 1⟩, ⟨"Medieval", 501, 1500, 1⟩,
   ⟨"Early Modern", 1501, 1800, 1⟩, ⟨"Modern", 1801, 1950, 1⟩,
   ⟨"Contemporary", 1951, 2030, 1⟩]

/-- A model of `rand.Shuffle`: the oracle receives the index of the shuffle
call and the list to permute, and returns the shuffled list.  Theorems
quantify over the oracle; a faithful oracle returns a permutation. -/
abbrev ShuffleOracle := Nat → List Nat → List Nat

/-- Go's `sort.SliceStable(sel, func(i, j) { return sel[i].Year < sel[j].Year })`:
the stable sort into non-decreasing year order.  A stable sort's output is
uniquely determined, so any stable sorting algorithm embeds it; insertion
sort is used because it evaluates by kernel reduction. -/
def sortByYear (l : List Event) : List Event :=
  List.insertionSort (fun a b => a.year ≤ b.year) l

/-- Indices of events whose year lies in the era's inclusive range
(the `eraEvents` slice). -/
def eraIndices (allEvents : List Event) (era : EraDef) : List Nat :=
  (List.range allEvents.length).filter fun i =>
    let ev := allEvents.getD i default
    decide (era.min ≤ ev.year ∧ ev.year ≤ era.max)

/-- The `for qi := 0; qi < era.quota && qi < len(eraEvents); qi++` loop:
take events at the first `quota` shuffled indices, skipping keys already
seen, breaking once 5 events are selected. -/
def pickLoop (allEvents : List Event) :
    List Nat → Nat → List Event → List Key → List Event × List Key
  | _, 0, sel, seen => (sel, seen)
  | [], _ + 1, sel, seen => (sel, seen)
  | i :: rest, q + 1, sel, seen =>
    let ev := allEvents.getD i default
    let k := keyFor ev
    let st := if k ∈ seen then (sel, seen) else (sel ++ [ev], k :: seen)
    if st.1.length ≥ 5 then st
    else pickLoop allEvents rest q st.1 st.2

/-- First pass of `selectEventsByEra`: walk the eras in order, shuffling
each era's eligible indices and taking up to its quota; eras with no
eligible events are skipped without consuming a shuffle call.  Returns the
selection, the seen keys, and the next shuffle-call index. -/
def eraPassLoop (shuf : ShuffleOracle) (allEvents : List Event) :
    List EraDef → Nat → List Event → List Key → List Event × List Key × Nat
  | [], callIdx, sel, seen => (sel, seen, callIdx)
  | era :: rest, callIdx, sel, seen =>
    let idxs := eraIndices allEvents era
    if idxs = [] then eraPassLoop shuf allEvents rest callIdx sel seen
    else
      let st := pickLoop allEvents (shuf callIdx idxs) era.quota sel seen
      if st.1.length ≥ 5 then (st.1, st.2, callIdx + 1)
      else eraPassLoop shuf allEvents rest (callIdx + 1) st.1 st.2

/-- Indices of events whose key is not yet in `seen` (the `remaining`
slice of the fill pass). -/
def remainingIndices (allEvents : List Event) (seen : List Key) : List Nat :=
  (List.range allEvents.length).filter fun i =>
    decide (keyFor (allEvents.getD i default) ∉ seen)

/-- Second pass of `selectEventsByEra`: if fewer than 5 events are selected
and not-yet-seen events remain, shuffle them and append
`need = min (5 - len(selected), len(remaining))` of them. -/
def fillPass (shuf : ShuffleOracle) (allEvents : List Event)
    (sel : List Event) (seen : List Key) (callIdx : Nat) : List Event :=
  if sel.length < 5 then
    let remaining := remainingIndices allEvents seen
    if remaining = [] then sel
    else
      let need := min (5 - sel.length) remaining.length
      sel ++ ((shuf callIdx remaining).take need).map
        (fun i => allEvents.getD i default)
  else sel

/-- `selectEventsByEra`: era pass, then fill remaining slots with shuffled
not-yet-seen events, then stable-sort ascending by year
(`sort.SliceStable`). -/
def selectEventsByEra (shuf : ShuffleOracle) (allEvents : List Event) :
    List Event :=
  if allEvents = [] then []
  else
    let r := eraPassLoop shuf allEvents eras 0 [] []
    sortByYear (fillPass shuf allEvents r.1 r.2.1 r.2.2)

/-- The identity shuffle oracle (a legitimate permutation). -/
def idShuf : ShuffleOracle := fun _ l => l

example :
    selectEventsByEra idShuf [⟨100, ['a']⟩, ⟨600, ['b']⟩] =
      [⟨100, ['a']⟩, ⟨600, ['b']⟩] := by decide
example :
    selectEventsByEra idShuf [⟨100, ['a']⟩, ⟨100, ['b']⟩, ⟨100, ['b']⟩] =
      [⟨100, ['a']⟩, ⟨100, ['b']⟩, ⟨100, ['b']⟩] := by decide

/-! ## Strategy dispatch of the corrected `generateEventList`
(`main.go` lines 661–697) -/

/-- `rand.Shuffle` applied directly to an event slice, modelled by letting
the oracle permute the index range (`site` tags the call site). -/
def shuffleByOracle (shuf : ShuffleOracle) (site : Nat)
    (events : List Event) : List Event :=
  (shuf site (List.range events.length)).map (fun i => events.getD i default)

/-- The selection-strategy dispatch of `generateEventList`: the
shuffle+oldest-first override to random, the strategy switch (unknown
strategies fall back to era-based), and the final display-order reshuffle
when the shuffle flag is set.  The random-path shuffle and the final
reshuffle use oracle sites 6 and 7, after the at most six sites the era
pass and fill can consume. -/
def applyStrategy (shuf : ShuffleOracle) (shuffle : Bool) (strategy : String)
    (events : List Event) : List Event :=
  let strategy := if shuffle ∧ strategy = "oldest-first" then "random" else strategy
  let events :=
    if strategy = "era-based" then
      let sel := selectEventsByEra shuf events
      if sel.length > 0 then sel else events
    else if strategy = "random" then
      let events := if events.length > 1 then shuffleByOracle shuf 6 events else events
      if events.length > 5 then events.take 5 else events
    else if strategy = "oldest-first" then
      let events := if events.length > 1 then sortByYear events else events
      if events.length > 5 then events.take 5 else events
    else
      let sel := selectEventsByEra shuf events
      if sel.length > 0 then sel else events
  if shuffle ∧ events.length > 1 then shuffleByOracle shuf 7 events else events

example :
    applyStrategy idShuf false "oldest-first"
      [⟨600, ['b']⟩, ⟨100, ['a']⟩, ⟨700, ['c']⟩, ⟨50, ['d']⟩, ⟨800, ['e']⟩, ⟨90, ['f']⟩] =
      [⟨50, ['d']⟩, ⟨90, ['f']⟩, ⟨100, ['a']⟩, ⟨600, ['b']⟩, ⟨700, ['c']⟩] := by decide

/-! ## Feed client: `FetchOnThisDay` (`internal/wikimedia/client.go`)

`client.go` holds two variants of the client.  The corrected variant
(second half of the file) writes the cache only when `bypassCache` is
false; the legacy variant (first half) writes it unconditionally on
success.  Both share the retry loop, modelled once below.

The outside world is a set of oracles: `net` gives each attempt's
transport outcome, `cancel` says whether the context is cancelled during
the sleep after an attempt, `randJ` gives `rand.Int63n(200ms)`'s draw for
that sleep, and `parse` abstracts `encoding/json` (`parseEventsFromBody`).
The on-disk cache at the requested key is `Option (body, fresh)`. -/

/-- Outcome of one HTTP attempt: transport error, body-read error, or a
response with a status code and body. -/
inductive AttemptResult where
  | netError
  | readError
  | response (status : Nat) (body : List Char)
deriving DecidableEq, Repr

/-- The errors `FetchOnThisDay` can return, one constructor per
`fmt.Errorf` site (plus the context-cancellation error). -/
inductive FetchError where
  | monthDayRequired
  | networkError
  | readFailed
  | statusRetry (code : Nat)
  | statusFatal (code : Nat) (body : List Char)
  | parseFailed
  | cancelled
  | exhausted
deriving DecidableEq, Repr

/-- The exact Go error message, for the errors whose text is fully
determined by the modelled data (the others interpolate an underlying
error's text). -/
def errorMessage : FetchError → Option String
  | .monthDayRequired => some "month and day required"
  | .statusRetry code => some ("API returned status code: " ++ toString code)
  | .statusFatal code body =>
      some ("API returned status code: " ++ toString code ++ ", body: " ++ String.mk body)
  | _ => none

/-- Nanoseconds in `n` milliseconds (Go `time.Duration` is an `int64` count
of nanoseconds). -/
def msNs (n : Nat) : Int := n * 1000000

/-- Duration slept by `sleepContext(ctx, d)` when not cancelled, as a
function of the draw `r = rand.Int63n(int64(200*time.Millisecond))`:
`jitter := r - 100ms; if jitter < 0 { jitter = 0 }; sleep(d + jitter)`. -/
def sleepDuration (d : Int) (r : Int) : Int :=
  let jitter := r - msNs 100
  let jitter := if jitter < 0 then 0 else jitter
  d + jitter

/-- The `([]Event, error)` pair `FetchOnThisDay` returns: exactly one of
the two is non-nil. -/
inductive FetchResult where
  | ok (events : List Event)
  | error (e : FetchError)
deriving DecidableEq, Repr

/-- Everything observable about one `FetchOnThisDay` call: the returned
value, the bodies written to the cache file, the number of HTTP requests
issued, and the durations of the backoff sleeps taken. -/
structure FetchOutcome where
  result : FetchResult
  cacheWrites : List (List Char)
  networkCalls : Nat
  sleeps : List Int
deriving DecidableEq, Repr

/-- `const maxAttempts = 3`. -/
def maxAttempts : Nat := 3

/-- The retry loop `for attempt := 1; attempt <= maxAttempts; attempt++`.
`fuel` is `maxAttempts - attempt + 1`; the `fuel = 0` case corresponds to
the unreachable `return` after the loop.  `writeOnSuccess` is the
condition under which the 200-handler writes the cache file: the corrected
variant passes `!bypassCache`, the legacy variant passes `true`. -/
def fetchAttempts (parse : List Char → Option (List Event))
    (net : Nat → AttemptResult) (cancel : Nat → Bool) (randJ : Nat → Int)
    (writeOnSuccess : Bool) : Nat → Int → Nat → FetchOutcome
  | _, _, 0 => ⟨.error .exhausted, [], 0, []⟩
  | attempt, backoff, fuel + 1 =>
    let retry (e : FetchError) : FetchOutcome :=
      if attempt < maxAttempts then
        if cancel attempt then ⟨.error .cancelled, [], 1, []⟩
        else
          let rest := fetchAttempts parse net cancel randJ writeOnSuccess
            (attempt + 1) (backoff * 2) fuel
          ⟨rest.result, rest.cacheWrites, rest.networkCalls + 1,
            sleepDuration backoff (randJ attempt) :: rest.sleeps⟩
      else ⟨.error e, [], 1, []⟩
    match net attempt with
    | .netError => retry .networkError
    | .readError => retry .readFailed
    | .response code body =>
      if code = 200 then
        match parse body with
        | none => ⟨.error .parseFailed, [], 1, []⟩
        | some evs => ⟨.ok evs, if writeOnSuccess then [body] else [], 1, []⟩
      else if code = 429 ∨ (500 ≤ code ∧ code < 600) then
        retry (.statusRetry code)
      else ⟨.error (.statusFatal code body), [], 1, []⟩

/-- The corrected `FetchOnThisDay` (second variant in `client.go`, lines
263–377): month/day guard, fresh-cache fast path, then the retry loop with
`backoff` starting at 500ms; the cache write on success happens only when
`!bypassCache`. -/
def FetchOnThisDay (parse : List Char → Option (List Event))
    (net : Nat → AttemptResult) (cancel : Nat → Bool) (randJ : Nat → Int)
    (month day : String) (cache : Option (List Char × Bool))
    (bypassCache : Bool) : FetchOutcome :=
  if month = "" ∨ day = "" then ⟨.error .monthDayRequired, [], 0, []⟩
  else
    let cacheHit : Option (List Event) :=
      if bypassCache then none
      else
        match cache with
        | some (data, true) => parse data
        | _ => none
    match cacheHit with
    | some evs => ⟨.ok evs, [], 0, []⟩
    | none => fetchAttempts parse net cancel randJ (!bypassCache) 1 (msNs 500) maxAttempts

/-- The legacy `FetchOnThisDay` (first variant in `client.go`, lines
49–149): identical except that the 200-handler's cache write is
unconditional (`_ = writeCacheFileAtomic(cacheFile, body)`). -/
def legacyFetchOnThisDay (parse : List Char → Option (List Event))
    (net : Nat → AttemptResult) (cancel : Nat → Bool) (randJ : Nat → Int)
    (month day : String) (cache : Option (List Char × Bool))
    (bypassCache : Bool) : FetchOutcome :=
  if month = "" ∨ day = "" then ⟨.error .monthDayRequired, [], 0, []⟩
  else
    let cacheHit : Option (List Event) :=
      if bypassCache then none
      else
        match cache with
        | some (data, true) => parse data
        | _ => none
    match cacheHit with
    | some evs => ⟨.ok evs, [], 0, []⟩
    | none => fetchAttempts parse net cancel randJ true 1 (msNs 500) maxAttempts

/-- A parse oracle accepting every body (enough for concrete scenarios). -/
def parseOk : List Char → Option (List Event) := fun _ => some []

/-- A network oracle answering every request with the given response. -/
def constNet (status : Nat) (body : List Char) : Nat → AttemptResult :=
  fun _ => .response status body

/-- An uncancelled context. -/
def noCancel : Nat → Bool := fun _ => false

/-- A jitter oracle always drawing 0. -/
def zeroJitter : Nat → Int := fun _ => 0

example :
    FetchOnThisDay parseOk (constNet 503 ['x']) noCancel zeroJitter
      "07" "20" none true =
      ⟨.error (.statusRetry 503), [], 3, [msNs 500, msNs 1000]⟩ := by decide
example :
    FetchOnThisDay parseOk (constNet 200 ['x']) noCancel zeroJitter
      "07" "20" none true =
      ⟨.ok [], [], 1, []⟩ := by decide
example :
    legacyFetchOnThisDay parseOk (constNet 200 ['x']) noCancel zeroJitter
      "07" "20" none true =
      ⟨.ok [], [['x']], 1, []⟩ := by decide
example :
    FetchOnThisDay parseOk (constNet 201 ['x']) noCancel zeroJitter
      "07" "20" none true =
      ⟨.error (.statusFatal 201 ['x']), [], 1, []⟩ := by decide

/-! ## Demonstration inputs used by witnesses and counterexamples -/

/-- Six events of two rows each: the fitting loop accepts the first five
and rejects the sixth on the event-count limit. -/
def demoSix : List Event :=
  [⟨1, ['a']⟩, ⟨2, ['a']⟩, ⟨3, ['a']⟩, ⟨4, ['a']⟩, ⟨5, ['a']⟩, ⟨6, ['a']⟩]

/-- An input with a duplicated (year, text) pair. -/
def dupInput : List Event := [⟨100, ['a']⟩, ⟨100, ['b']⟩, ⟨100, ['b']⟩]

/-- A small duplicate-free input. -/
def cleanInput : List Event := [⟨100, ['a']⟩, ⟨600, ['b']⟩]

/-- `a.year ≤ b.year` is total. -/
instance : IsTotal Event (fun a b => a.year ≤ b.year) :=
  ⟨fun a b => Int.le_total a.year b.year⟩

/-- `a.year ≤ b.year` is transitive. -/
instance : IsTrans Event (fun a b => a.year ≤ b.year) :=
  ⟨fun _ _ _ h1 h2 => le_trans h1 h2⟩

/-! ## Theorems -/

theorem truncWord_length_le (w : List Char) (W : Nat) :
    (truncWord w W).length ≤ W := by
  unfold truncWord
  split
  · simp only [List.length_append, List.length_take, List.length_cons,
      List.length_nil]
    omega
  · simp only [List.length_take]
    omega

theorem wrapStep_bound (W : Nat) (st : List (List Char) × List Char)
    (w : List Char) (h1 : ∀ l ∈ st.1, l.length ≤ W) (h2 : st.2.length ≤ W) :
    (∀ l ∈ (wrapStep W st w).1, l.length ≤ W) ∧
      (wrapStep W st w).2.length ≤ W := by
  obtain ⟨lines, current⟩ := st
  simp only at h1 h2
  simp only [wrapStep]
  split_ifs with hcur hfit happ hfit2
  · exact ⟨h1, by simpa using hfit⟩
  · refine ⟨fun l hl => ?_, by simp⟩
    rcases List.mem_append.mp hl with hl | hl
    · exact h1 l hl
    · simp only [List.mem_singleton] at hl
      subst hl
      exact truncWord_length_le _ _
  · refine ⟨h1, ?_⟩
    simp only [List.length_append, List.length_cons, List.length_nil]
    omega
  · refine ⟨fun l hl => ?_, hfit2⟩
    rcases List.mem_append.mp hl with hl | hl
    · exact h1 l hl
    · simp only [List.mem_singleton] at hl
      subst hl
      exact h2
  · refine ⟨fun l hl => ?_, by simp⟩
    rcases List.mem_append.mp hl with hl | hl
    · exact h1 l hl
    · simp only [List.mem_cons, List.mem_singleton, List.not_mem_nil, or_false] at hl
      rcases hl with hl | hl
      · subst hl; exact h2
      · subst hl; exact truncWord_length_le _ _

theorem wrapFold_bound (W : Nat) (ws : List (List Char))
    (st : List (List Char) × List Char)
    (h1 : ∀ l ∈ st.1, l.length ≤ W) (h2 : st.2.length ≤ W) :
    (∀ l ∈ (ws.foldl (wrapStep W) st).1, l.length ≤ W) ∧
      (ws.foldl (wrapStep W) st).2.length ≤ W := by
  induction ws generalizing st with
  | nil => exact ⟨h1, h2⟩
  | cons w rest ih =>
    have h := wrapStep_bound W st w h1 h2
    exact ih (wrapStep W st w) h.1 h.2

/-- C7: for every text and every `maxWidth ≥ 1`, every line returned by
`wrapText` has at most `maxWidth` characters (runes): no wrapped line ever
exceeds the max width. -/
theorem wrapText_line_width_le (text : List Char) (maxWidth : Int)
    (hW : 1 ≤ maxWidth) :
    ∀ l ∈ wrapText text maxWidth, (l.length : Int) ≤ maxWidth := by
  intro l hl
  simp only [wrapText] at hl
  have h := wrapFold_bound maxWidth.toNat (goFields text) ([], [])
    (by simp) (by simp)
  split_ifs at hl with h1 h2 h3 h4 h5
  · exact absurd h1 (by omega)
  · simp only [List.mem_singleton] at hl
    subst hl
    exact h2
  · simp only [List.mem_singleton] at hl
    subst hl
    simp only [List.length_nil, Nat.cast_zero]
    omega
  · simp only [List.mem_singleton] at hl
    subst hl
    simp only [List.length_nil, Nat.cast_zero]
    omega
  · have := h.1 l hl
    omega
  · simp only [List.mem_singleton] at hl
    subst hl
    simp only [List.length_nil, Nat.cast_zero]
    omega
  · rcases List.mem_append.mp hl with hm | hm
    · have := h.1 l hm
      omega
    · simp only [List.mem_singleton] at hm
      subst hm
      have := h.2
      omega

/-- Witness for C7 at a concrete input: the first line `wrapText` produces
for `"ab cd ef"` at width 5 fits in 5 characters. -/
theorem wrapText_line_width_le_witness :
    (((wrapText "ab cd ef".toList 5).getD 0 []).length : Int) ≤ 5 :=
  wrapText_line_width_le "ab cd ef".toList 5 (by decide)
    ((wrapText "ab cd ef".toList 5).getD 0 []) (by decide)

/-- C10: `wrapText` never returns an empty list — for every text and every
width, including non-positive widths and whitespace-only text — so the
unconditional `wrapped[0]` access in `RenderEvents` is in bounds. -/
theorem wrapText_length_pos (text : List Char) (maxWidth : Int) :
    0 < (wrapText text maxWidth).length := by
  simp only [wrapText]
  split_ifs <;> simp_all [List.length_pos]

theorem goFieldsAux_nospace :
    ∀ s : List Char, (∀ c ∈ s, goIsSpace c = false) →
      ∀ cur : List Char,
        goFieldsAux s cur =
          if cur.reverse ++ s = [] then [] else [cur.reverse ++ s] := by
  intro s
  induction s with
  | nil =>
    intro _ cur
    simp [goFieldsAux]
  | cons c rest ih =>
    intro h cur
    have hc : goIsSpace c = false := h c (List.mem_cons_self c rest)
    have hrest : ∀ x ∈ rest, goIsSpace x = false :=
      fun x hx => h x (List.mem_cons_of_mem c hx)
    simp only [goFieldsAux, hc, Bool.false_eq_true, if_false]
    rw [ih hrest (c :: cur)]
    simp

/-- A non-empty text without white space is a single field. -/
theorem goFields_single (s : List Char) (hne : s ≠ [])
    (h : ∀ c ∈ s, goIsSpace c = false) : goFields s = [s] := by
  unfold goFields
  rw [goFieldsAux_nospace s h []]
  simp [hne]

/-- C8: a single word longer than `maxWidth` (with `maxWidth ≥ 1`) yields
exactly one line: the word truncated to `maxWidth - 3` characters with a
3-character `"..."` suffix when `maxWidth > 3`, else hard-truncated to
`maxWidth` characters with no ellipsis. -/
theorem wrapText_long_single_word (text : List Char) (maxWidth : Int)
    (hW : 1 ≤ maxWidth) (hword : ∀ c ∈ text, goIsSpace c = false)
    (hlong : maxWidth < (text.length : Int)) :
    wrapText text maxWidth =
      [if 3 < maxWidth then text.take (maxWidth.toNat - 3) ++ ['.', '.', '.']
       else text.take maxWidth.toNat] := by
  have hne : text ≠ [] := by
    intro he
    subst he
    simp only [List.length_nil, Nat.cast_zero] at hlong
    omega
  have hgf : goFields text = [text] := goFields_single text hne hword
  simp only [wrapText, hgf]
  rw [if_neg (by omega), if_neg (by omega), if_neg (by simp)]
  simp only [List.foldl_cons, List.foldl_nil]
  have hWnat : ¬ text.length ≤ maxWidth.toNat := by omega
  simp only [wrapStep, if_pos rfl, if_neg hWnat, List.nil_append]
  simp only [truncWord]
  by_cases h3 : 3 < maxWidth
  · rw [if_pos (by omega : maxWidth.toNat > 3), if_pos h3]
    simp
  · rw [if_neg (by omega : ¬ maxWidth.toNat > 3), if_neg h3]
    simp

/-- Witness for C8 at concrete inputs: the 8-character word `"abcdefgh"`
at width 5 becomes `"ab..."`, at width 3 becomes `"abc"`. -/
theorem wrapText_long_single_word_witness :
    wrapText "abcdefgh".toList 5 = ["ab...".toList] ∧
    wrapText "abcdefgh".toList 3 = ["abc".toList] := by
  constructor
  · rw [wrapText_long_single_word "abcdefgh".toList 5 (by decide) (by decide)
      (by decide)]
    decide
  · rw [wrapText_long_single_word "abcdefgh".toList 3 (by decide) (by decide)
      (by decide)]
    decide

theorem fitAux_spec (events : List Event) :
    ∀ used cnt : Nat,
      fitAux events used cnt <+: events ∧
      (fitAux events used cnt).length ≤ 5 - cnt ∧
      rowsUsed (fitAux events used cnt) ≤ maxContentRows - used ∧
      ∀ e rest, events = fitAux events used cnt ++ e :: rest →
        ¬(used + rowsUsed (fitAux events used cnt) + eventRows e ≤ maxContentRows ∧
          cnt + (fitAux events used cnt).length < 5) := by
  induction events with
  | nil =>
    intro used cnt
    refine ⟨⟨[], rfl⟩, by simp [fitAux], by simp [fitAux, rowsUsed], ?_⟩
    intro e rest heq
    simp [fitAux] at heq
  | cons e0 rest0 ih =>
    intro used cnt
    by_cases hcond : used + eventRows e0 ≤ maxContentRows ∧ cnt < 5
    · simp only [fitAux, if_pos hcond]
      obtain ⟨hpre, hlen, hrows, hmax⟩ := ih (used + eventRows e0) (cnt + 1)
      refine ⟨?_, ?_, ?_, ?_⟩
      · obtain ⟨t, ht⟩ := hpre
        exact ⟨t, by rw [List.cons_append, ht]⟩
      · simp only [List.length_cons]
        omega
      · simp only [rowsUsed, List.map_cons, List.sum_cons] at hrows ⊢
        omega
      · intro e rest heq
        rw [List.cons_append, List.cons.injEq] at heq
        have h := hmax e rest heq.2
        intro hc
        simp only [rowsUsed, List.map_cons, List.sum_cons, List.length_cons] at hc
        refine h ⟨?_, ?_⟩
        · simp only [rowsUsed]
          omega
        · omega
    · simp only [fitAux, if_neg hcond]
      refine ⟨⟨e0 :: rest0, rfl⟩, by simp, by simp [rowsUsed], ?_⟩
      intro e rest heq
      rw [List.nil_append, List.cons.injEq] at heq
      intro hc
      apply hcond
      rw [heq.1]
      simp only [rowsUsed, List.map_nil, List.sum_nil, List.length_nil] at hc
      exact ⟨by omega, by omega⟩

/-- C6: the layout engine accepts events greedily in input order at a cost
of wrapped lines + 1 rows each, only while the total stays within the
12-row budget and fewer than 5 events are accepted; the first event
violating either bound stops acceptance (the accepted list is a prefix of
the input, the rest are dropped).  The single event `{1969, "Moon landing"}`
at max line length 65 wraps to one line and costs 2 rows. -/
theorem renderEvents_fit (events : List Event) :
    fitEvents events <+: events ∧
    (fitEvents events).length ≤ 5 ∧
    rowsUsed (fitEvents events) ≤ maxContentRows ∧
    (∀ e rest, events = fitEvents events ++ e :: rest →
      ¬(rowsUsed (fitEvents events) + eventRows e ≤ maxContentRows ∧
        (fitEvents events).length < 5)) ∧
    fitEvents [⟨1969, "Moon landing".toList⟩] = [⟨1969, "Moon landing".toList⟩] ∧
    (wrapText (goTrimSpace "Moon landing".toList) maxLineLength).length = 1 ∧
    eventRows ⟨1969, "Moon landing".toList⟩ = 2 := by
  simp only [fitEvents]
  obtain ⟨hpre, hlen, hrows, hmax⟩ := fitAux_spec events 0 0
  refine ⟨hpre, by omega, by simpa using hrows, ?_, by decide, by decide, by decide⟩
  intro e rest heq hc
  exact hmax e rest heq ⟨by omega, by omega⟩

/-- Witness for C6: on six 2-row events the fitting loop accepts the first
five, and the test on the sixth event fails (five already accepted). -/
theorem renderEvents_fit_witness :
    ¬(rowsUsed (fitEvents demoSix) + eventRows ⟨6, ['a']⟩ ≤ maxContentRows ∧
      (fitEvents demoSix).length < 5) :=
  (renderEvents_fit demoSix).2.2.2.1 ⟨6, ['a']⟩ [] (by decide)

theorem sortByYear_sorted (l : List Event) :
    List.Pairwise (fun a b => a.year ≤ b.year) (sortByYear l) :=
  List.sorted_insertionSort _ l

theorem sortByYear_perm (l : List Event) : (sortByYear l).Perm l :=
  List.perm_insertionSort _ l

theorem pairwise_year_of_short {l : List Event} (h : l.length ≤ 1) :
    List.Pairwise (fun a b => a.year ≤ b.year) l := by
  cases l with
  | nil => simp
  | cons a t =>
    cases t with
    | nil => simp
    | cons b t2 => simp at h

/-- C9: the oldest-first strategy with the shuffle flag disabled is
deterministic — the shuffle oracle is never consulted, so any two runs
agree — and its output is sorted ascending by year with length at most
5. -/
theorem oldestFirst_deterministic (shuf1 shuf2 : ShuffleOracle)
    (events : List Event) :
    applyStrategy shuf1 false "oldest-first" events =
      applyStrategy shuf2 false "oldest-first" events ∧
    List.Pairwise (fun a b => a.year ≤ b.year)
      (applyStrategy shuf1 false "oldest-first" events) ∧
    (applyStrategy shuf1 false "oldest-first" events).length ≤ 5 := by
  have hred : ∀ shuf : ShuffleOracle,
      applyStrategy shuf false "oldest-first" events =
        (let ev2 := if events.length > 1 then sortByYear events else events
         if ev2.length > 5 then ev2.take 5 else ev2) := fun _ => rfl
  refine ⟨(hred shuf1).trans (hred shuf2).symm, ?_, ?_⟩
  · rw [hred shuf1]
    by_cases h1 : events.length > 1
    · simp only [if_pos h1]
      by_cases h5 : (sortByYear events).length > 5
      · simp only [if_pos h5]
        exact (sortByYear_sorted events).sublist (List.take_sublist 5 _)
      · simp only [if_neg h5]
        exact sortByYear_sorted events
    · simp only [if_neg h1]
      have hle : events.length ≤ 1 := by omega
      have h5 : ¬ events.length > 5 := by omega
      simp only [if_neg h5]
      exact pairwise_year_of_short hle
  · rw [hred shuf1]
    by_cases h1 : events.length > 1
    · simp only [if_pos h1]
      by_cases h5 : (sortByYear events).length > 5
      · simp only [if_pos h5, List.length_take]
        omega
      · simp only [if_neg h5]
        omega
    · simp only [if_neg h1]
      have h5 : ¬ events.length > 5 := by omega
      simp only [if_neg h5]
      omega

theorem fetchAttempts_no_write (parse : List Char → Option (List Event))
    (net : Nat → AttemptResult) (cancel : Nat → Bool) (randJ : Nat → Int) :
    ∀ fuel attempt backoff,
      (fetchAttempts parse net cancel randJ false attempt backoff fuel).cacheWrites
        = [] := by
  intro fuel
  induction fuel with
  | zero =>
    intro attempt backoff
    rfl
  | succ n ih =>
    intro attempt backoff
    simp only [fetchAttempts]
    cases hnet : net attempt with
    | netError => split_ifs <;> simp [ih]
    | readError => split_ifs <;> simp [ih]
    | response code body =>
      cases hp : parse body
      · simp only [hp]
        split_ifs <;> simp [ih]
      · simp only [hp]
        split_ifs <;> first | simp [ih] | (exfalso; assumption)

/-- C2 (amended): in the corrected variant of `FetchOnThisDay`, a call with
`bypassCache = true` performs no cache write at all — the raw body is
written only when `bypassCache` is false.  (The legacy first variant in
`client.go` instead writes unconditionally on success, see the
counterexample.) -/
theorem fetch_bypass_no_write (parse : List Char → Option (List Event))
    (net : Nat → AttemptResult) (cancel : Nat → Bool) (randJ : Nat → Int)
    (month day : String) (cache : Option (List Char × Bool)) :
    (FetchOnThisDay parse net cancel randJ month day cache true).cacheWrites
      = [] := by
  simp only [FetchOnThisDay]
  split_ifs with h
  · rfl
  · exact fetchAttempts_no_write parse net cancel randJ maxAttempts 1 (msNs 500)

/-- C2 counterexample: the legacy `FetchOnThisDay` variant, called with
`bypassCache = true` against a server answering 200 with body `"x"`,
succeeds via the network path and still writes the body to the cache
file. -/
theorem legacy_bypass_writes_cache :
    (legacyFetchOnThisDay parseOk (constNet 200 ['x']) noCancel zeroJitter
        "07" "20" none true).cacheWrites = [['x']] ∧
    (legacyFetchOnThisDay parseOk (constNet 200 ['x']) noCancel zeroJitter
        "07" "20" none true).result = .ok [] := by
  decide

theorem fetch_network_path (parse : List Char → Option (List Event))
    (net : Nat → AttemptResult) (cancel : Nat → Bool) (randJ : Nat → Int)
    (month day : String) (cache : Option (List Char × Bool)) (bypass : Bool)
    (hm : month ≠ "") (hd : day ≠ "") (hmiss : bypass = true ∨ cache = none) :
    FetchOnThisDay parse net cancel randJ month day cache bypass =
      fetchAttempts parse net cancel randJ (!bypass) 1 (msNs 500) maxAttempts := by
  simp only [FetchOnThisDay]
  rw [if_neg (by simp [hm, hd])]
  rcases hmiss with hb | hc
  · subst hb
    rfl
  · subst hc
    cases bypass <;> rfl

/-- C3 (amended): only HTTP status exactly 200 is treated as success by
`FetchOnThisDay` (body parsed, parsed events returned); any other status
that is not 429 or 5xx — including other 2xx codes — is surfaced
immediately, after a single request, as a non-retryable status failure
carrying the status code and body. -/
theorem fetch_only_200_success (parse : List Char → Option (List Event))
    (net : Nat → AttemptResult) (cancel : Nat → Bool) (randJ : Nat → Int)
    (month day : String) (cache : Option (List Char × Bool)) (bypass : Bool)
    (hm : month ≠ "") (hd : day ≠ "") (hmiss : bypass = true ∨ cache = none)
    (code : Nat) (body : List Char) (hresp : net 1 = .response code body) :
    (code = 200 → ∀ evs, parse body = some evs →
      (FetchOnThisDay parse net cancel randJ month day cache bypass).result =
        .ok evs) ∧
    (code ≠ 200 → code ≠ 429 → ¬(500 ≤ code ∧ code < 600) →
      (FetchOnThisDay parse net cancel randJ month day cache bypass).result =
          .error (.statusFatal code body) ∧
      (FetchOnThisDay parse net cancel randJ month day cache
          bypass).networkCalls = 1) := by
  rw [fetch_network_path parse net cancel randJ month day cache bypass hm hd hmiss]
  have h31 : maxAttempts = 2 + 1 := rfl
  rw [h31]
  simp only [fetchAttempts, hresp]
  constructor
  · intro h200 evs hparse
    subst h200
    simp [hparse]
  · intro h200 h429 h5xx
    rw [if_neg h200, if_neg (by tauto)]
    exact ⟨rfl, rfl⟩

/-- C3 counterexample: a 2xx response that is not exactly 200 (status 201,
with a body every parse oracle accepts) is not treated as success — it is
surfaced immediately as a non-retryable status failure. -/
theorem fetch_201_not_success :
    (FetchOnThisDay parseOk (constNet 201 ['x']) noCancel zeroJitter
        "07" "20" none true).result = .error (.statusFatal 201 ['x']) ∧
    (FetchOnThisDay parseOk (constNet 201 ['x']) noCancel zeroJitter
        "07" "20" none true).networkCalls = 1 := by
  decide

/-- Witness for C3 (amended) at concrete inputs: a 200 response with an
accepted body yields the parsed events. -/
theorem fetch_only_200_success_witness :
    (FetchOnThisDay parseOk (constNet 200 ['x']) noCancel zeroJitter
        "07" "20" none true).result = .ok [] :=
  (fetch_only_200_success parseOk (constNet 200 ['x']) noCancel zeroJitter
      "07" "20" none true (by decide) (by decide) (Or.inl rfl)
      200 ['x'] rfl).1 rfl [] rfl

theorem sleepDuration_bounds (d r : Int) (h0 : 0 ≤ r) (h2 : r < msNs 200) :
    d ≤ sleepDuration d r ∧ sleepDuration d r < d + msNs 100 := by
  simp only [sleepDuration, msNs] at h2 ⊢
  split_ifs <;> constructor <;> omega

theorem fetchAttempts_sleeps_getD (parse : List Char → Option (List Event))
    (net : Nat → AttemptResult) (cancel : Nat → Bool) (randJ : Nat → Int)
    (w : Bool) :
    ∀ fuel attempt backoff i,
      i < (fetchAttempts parse net cancel randJ w attempt
            backoff fuel).sleeps.length →
      (fetchAttempts parse net cancel randJ w attempt backoff fuel).sleeps.getD
          i 0 =
        sleepDuration (backoff * 2 ^ i) (randJ (attempt + i)) := by
  intro fuel
  induction fuel with
  | zero =>
    intro attempt backoff i hi
    simp [fetchAttempts] at hi
  | succ n ih =>
    intro attempt backoff i hi
    simp only [fetchAttempts] at hi ⊢
    cases hnet : net attempt <;> simp only [hnet] at hi ⊢
    case response code body =>
      cases hp : parse body <;> simp only [hp] at hi ⊢ <;>
        split_ifs at hi ⊢ <;>
        first
          | (cases i with
             | zero => simp
             | succ i =>
               rw [List.getD_cons_succ,
                 ih (attempt + 1) (backoff * 2) i (by simpa using hi)]
               congr 1
               · ring
               · congr 1
                 omega)
          | simp at hi
    all_goals
      split_ifs at hi ⊢ <;>
        first
          | (cases i with
             | zero => simp
             | succ i =>
               rw [List.getD_cons_succ,
                 ih (attempt + 1) (backoff * 2) i (by simpa using hi)]
               congr 1
               · ring
               · congr 1
                 omega)
          | simp at hi

/-- Either no backoff sleep happens at all (bad arguments or a cache hit),
or the call runs the retry loop from attempt 1 with backoff 500ms. -/
theorem fetch_sleeps_shape (parse : List Char → Option (List Event))
    (net : Nat → AttemptResult) (cancel : Nat → Bool) (randJ : Nat → Int)
    (month day : String) (cache : Option (List Char × Bool)) (bypass : Bool) :
    (FetchOnThisDay parse net cancel randJ month day cache bypass).sleeps = [] ∨
    FetchOnThisDay parse net cancel randJ month day cache bypass =
      fetchAttempts parse net cancel randJ (!bypass) 1 (msNs 500) maxAttempts := by
  simp only [FetchOnThisDay]
  split_ifs
  · exact Or.inl rfl
  · exact Or.inr rfl
  · rcases cache with _ | ⟨data, fresh⟩
    · exact Or.inr rfl
    · cases fresh
      · exact Or.inr rfl
      · cases hp : parse data <;> simp [hp]

/-- C4 (amended): every backoff sleep of `FetchOnThisDay` lasts the current
backoff — 500ms doubled after every retry — plus a jitter that is the draw
from `[0ms, 200ms)` shifted down by 100ms and clamped below at 0; the sleep
therefore lies in `[backoff, backoff + 100ms)` and is never shorter than the
backoff (the negative half of the documented `[-100ms, +100ms)` range never
occurs). -/
theorem fetch_backoff_sleeps (parse : List Char → Option (List Event))
    (net : Nat → AttemptResult) (cancel : Nat → Bool) (randJ : Nat → Int)
    (month day : String) (cache : Option (List Char × Bool)) (bypass : Bool)
    (hr : ∀ k, 0 ≤ randJ k ∧ randJ k < msNs 200) :
    ∀ i,
      i < (FetchOnThisDay parse net cancel randJ month day cache
            bypass).sleeps.length →
      (FetchOnThisDay parse net cancel randJ month day cache bypass).sleeps.getD
            i 0 =
          sleepDuration (msNs 500 * 2 ^ i) (randJ (1 + i)) ∧
        msNs 500 * 2 ^ i ≤
          (FetchOnThisDay parse net cancel randJ month day cache
              bypass).sleeps.getD i 0 ∧
        (FetchOnThisDay parse net cancel randJ month day cache bypass).sleeps.getD
            i 0 <
          msNs 500 * 2 ^ i + msNs 100 := by
  intro i hi
  have hb := sleepDuration_bounds (msNs 500 * 2 ^ i) (randJ (1 + i))
    (hr (1 + i)).1 (hr (1 + i)).2
  rcases fetch_sleeps_shape parse net cancel randJ month day cache bypass with
    hs | hs
  · rw [hs] at hi
    simp at hi
  · rw [hs] at hi ⊢
    have hg := fetchAttempts_sleeps_getD parse net cancel randJ (!bypass)
      maxAttempts 1 (msNs 500) i hi
    rw [hg]
    exact ⟨rfl, hb.1, hb.2⟩

/-- C4 counterexample: at draw `r = 0` (jitter −100ms) the claim says the
sleep lasts `backoff − 100ms`, but `sleepContext` clamps negative jitter to
zero and sleeps the full backoff. -/
theorem sleep_no_negative_jitter :
    sleepDuration (msNs 500) 0 = msNs 500 ∧
    sleepDuration (msNs 500) 0 ≠ msNs 500 + (0 - msNs 100) := by
  decide

/-- Witness for C4 (amended): against an always-503 server with draw 0, the
first backoff sleep is exactly 500ms. -/
theorem fetch_backoff_sleeps_witness :
    (FetchOnThisDay parseOk (constNet 503 ['x']) noCancel zeroJitter "07" "20"
        none true).sleeps.getD 0 0 =
      sleepDuration (msNs 500 * 2 ^ 0) (zeroJitter (1 + 0)) ∧
    msNs 500 * 2 ^ 0 ≤
      (FetchOnThisDay parseOk (constNet 503 ['x']) noCancel zeroJitter "07" "20"
          none true).sleeps.getD 0 0 ∧
    (FetchOnThisDay parseOk (constNet 503 ['x']) noCancel zeroJitter "07" "20"
        none true).sleeps.getD 0 0 < msNs 500 * 2 ^ 0 + msNs 100 :=
  fetch_backoff_sleeps parseOk (constNet 503 ['x']) noCancel zeroJitter "07" "20"
    none true (fun _ => ⟨le_refl 0, show (0:Int) < msNs 200 by decide⟩) 0
    (by decide)

/-- C5: against a server that answers every request with HTTP 503 (with an
uncancelled context), `FetchOnThisDay` makes exactly 3 attempts (2 retries)
and returns the retryable-status error for code 503, whose Go message
`"API returned status code: 503"` includes the final status code. -/
theorem fetch_always_503_three_attempts (parse : List Char → Option (List Event))
    (net : Nat → AttemptResult) (cancel : Nat → Bool) (randJ : Nat → Int)
    (month day : String) (bypass : Bool) (body : List Char)
    (hm : month ≠ "") (hd : day ≠ "")
    (hnet : ∀ a, net a = .response 503 body)
    (hcancel : ∀ a, cancel a = false) :
    (FetchOnThisDay parse net cancel randJ month day none bypass).result =
        .error (.statusRetry 503) ∧
    (FetchOnThisDay parse net cancel randJ month day none
        bypass).networkCalls = 3 ∧
    errorMessage (FetchError.statusRetry 503) =
      some ("API returned status code: " ++ "503") := by
  rw [fetch_network_path parse net cancel randJ month day none bypass hm hd
    (Or.inr rfl)]
  have h31 : maxAttempts = 2 + 1 := rfl
  rw [h31]
  refine ⟨?_, ?_, by decide⟩ <;>
    simp [fetchAttempts, maxAttempts, hnet 1, hnet 2, hnet 3, hcancel 1,
      hcancel 2]

/-- Witness for C5 at concrete inputs. -/
theorem fetch_always_503_three_attempts_witness :
    (FetchOnThisDay parseOk (constNet 503 ['z']) noCancel zeroJitter "01" "02"
        none false).result = .error (.statusRetry 503) ∧
    (FetchOnThisDay parseOk (constNet 503 ['z']) noCancel zeroJitter "01" "02"
        none false).networkCalls = 3 :=
  have h := fetch_always_503_three_attempts parseOk (constNet 503 ['z'])
    noCancel zeroJitter "01" "02" false ['z'] (by decide) (by decide)
    (fun _ => rfl) (fun _ => rfl)
  ⟨h.1, h.2.1⟩

theorem pickLoop_inv (allEvents : List Event) :
    ∀ idxs : List Nat, ∀ q : Nat, ∀ sel : List Event, ∀ seen : List Key,
      sel.length < 5 → (sel.map keyFor).Nodup →
      (∀ e ∈ sel, keyFor e ∈ seen) →
      (pickLoop allEvents idxs q sel seen).1.length ≤ 5 ∧
      ((pickLoop allEvents idxs q sel seen).1.map keyFor).Nodup ∧
      (∀ e ∈ (pickLoop allEvents idxs q sel seen).1,
        keyFor e ∈ (pickLoop allEvents idxs q sel seen).2) ∧
      (∀ k ∈ seen, k ∈ (pickLoop allEvents idxs q sel seen).2) := by
  intro idxs
  induction idxs with
  | nil =>
    intro q sel seen h5 hnd hsub
    cases q <;> exact ⟨Nat.le_of_lt h5, hnd, hsub, fun k hk => hk⟩
  | cons i rest ih =>
    intro q sel seen h5 hnd hsub
    cases q with
    | zero => exact ⟨Nat.le_of_lt h5, hnd, hsub, fun k hk => hk⟩
    | succ q2 =>
      simp only [pickLoop]
      by_cases hk : keyFor (allEvents.getD i default) ∈ seen
      · rw [if_pos hk]
        dsimp only
        rw [if_neg (by omega)]
        exact ih q2 sel seen h5 hnd hsub
      · rw [if_neg hk]
        dsimp only
        have hnd' : ((sel ++ [allEvents.getD i default]).map keyFor).Nodup := by
          simp only [List.map_append, List.map_cons, List.map_nil]
          refine hnd.append (List.nodup_singleton _) ?_
          intro a ha hb
          simp only [List.mem_singleton] at hb
          subst hb
          obtain ⟨e, he, hae⟩ := List.mem_map.mp ha
          exact hk (hae ▸ hsub e he)
        have hsub' : ∀ e ∈ sel ++ [allEvents.getD i default],
            keyFor e ∈ keyFor (allEvents.getD i default) :: seen := by
          intro e he
          rcases List.mem_append.mp he with he | he
          · exact List.mem_cons_of_mem _ (hsub e he)
          · simp only [List.mem_singleton] at he
            subst he
            exact List.mem_cons_self _ _
        by_cases h5' : (sel ++ [allEvents.getD i default]).length ≥ 5
        · rw [if_pos h5']
          refine ⟨?_, hnd', hsub',
            fun k2 hk2 => List.mem_cons_of_mem _ hk2⟩
          simp only [List.length_append, List.length_cons, List.length_nil]
          omega
        · rw [if_neg h5']
          have hlt : (sel ++ [allEvents.getD i default]).length < 5 := by omega
          have hres := ih q2 (sel ++ [allEvents.getD i default])
            (keyFor (allEvents.getD i default) :: seen) hlt hnd' hsub'
          exact ⟨hres.1, hres.2.1, hres.2.2.1,
            fun k2 hk2 => hres.2.2.2 k2 (List.mem_cons_of_mem _ hk2)⟩

theorem eraPassLoop_inv (shuf : ShuffleOracle) (allEvents : List Event) :
    ∀ es : List EraDef, ∀ callIdx : Nat, ∀ sel : List Event, ∀ seen : List Key,
      sel.length < 5 → (sel.map keyFor).Nodup →
      (∀ e ∈ sel, keyFor e ∈ seen) →
      (eraPassLoop shuf allEvents es callIdx sel seen).1.length ≤ 5 ∧
      ((eraPassLoop shuf allEvents es callIdx sel seen).1.map keyFor).Nodup ∧
      (∀ e ∈ (eraPassLoop shuf allEvents es callIdx sel seen).1,
        keyFor e ∈ (eraPassLoop shuf allEvents es callIdx sel seen).2.1) ∧
      (∀ k ∈ seen, k ∈ (eraPassLoop shuf allEvents es callIdx sel seen).2.1) := by
  intro es
  induction es with
  | nil =>
    intro callIdx sel seen h5 hnd hsub
    exact ⟨Nat.le_of_lt h5, hnd, hsub, fun k hk => hk⟩
  | cons era rest ih =>
    intro callIdx sel seen h5 hnd hsub
    simp only [eraPassLoop]
    have hpick := pickLoop_inv allEvents (shuf callIdx (eraIndices allEvents era))
      era.quota sel seen h5 hnd hsub
    split_ifs with hidx hge
    · exact ih callIdx sel seen h5 hnd hsub
    · exact ⟨hpick.1, hpick.2.1, hpick.2.2.1, hpick.2.2.2⟩
    · have hlt : (pickLoop allEvents (shuf callIdx (eraIndices allEvents era))
          era.quota sel seen).1.length < 5 := by omega
      have hres := ih (callIdx + 1) _ _ hlt hpick.2.1 hpick.2.2.1
      exact ⟨hres.1, hres.2.1, hres.2.2.1,
        fun k hk => hres.2.2.2 k (hpick.2.2.2 k hk)⟩

theorem keyFor_getD_inj (allEvents : List Event)
    (hnodup : (allEvents.map keyFor).Nodup) :
    ∀ i j, i < allEvents.length → j < allEvents.length →
      keyFor (allEvents.getD i default) = keyFor (allEvents.getD j default) →
      i = j := by
  intro i j hi hj hk
  rw [List.getD_eq_getElem allEvents default hi,
    List.getD_eq_getElem allEvents default hj] at hk
  have hi2 : i < (allEvents.map keyFor).length := by simpa using hi
  have hj2 : j < (allEvents.map keyFor).length := by simpa using hj
  have hg : (allEvents.map keyFor).get ⟨i, hi2⟩ =
      (allEvents.map keyFor).get ⟨j, hj2⟩ := by
    simp only [List.get_eq_getElem, List.getElem_map]
    exact hk
  have := hnodup.get_inj_iff.mp hg
  exact congrArg Fin.val this

theorem remainingIndices_mem (allEvents : List Event) (seen : List Key) :
    ∀ i ∈ remainingIndices allEvents seen,
      i < allEvents.length ∧ keyFor (allEvents.getD i default) ∉ seen := by
  intro i hi
  simp only [remainingIndices, List.mem_filter, List.mem_range,
    decide_eq_true_eq] at hi
  exact hi

theorem fillPass_inv (shuf : ShuffleOracle)
    (hperm : ∀ i l, (shuf i l).Perm l) (allEvents : List Event)
    (hnodup : (allEvents.map keyFor).Nodup) (sel : List Event)
    (seen : List Key) (callIdx : Nat) (h5 : sel.length ≤ 5)
    (hnd : (sel.map keyFor).Nodup) (hsub : ∀ e ∈ sel, keyFor e ∈ seen) :
    (fillPass shuf allEvents sel seen callIdx).length ≤ 5 ∧
    ((fillPass shuf allEvents sel seen callIdx).map keyFor).Nodup := by
  simp only [fillPass]
  split_ifs with hlt hrem
  · exact ⟨h5, hnd⟩
  · have hremnd : (remainingIndices allEvents seen).Nodup :=
      (List.nodup_range _).filter _
    have hshufnd : (shuf callIdx (remainingIndices allEvents seen)).Nodup :=
      ((hperm callIdx _).nodup_iff).mpr hremnd
    have hFnodup : ((shuf callIdx (remainingIndices allEvents seen)).take
        (min (5 - sel.length) (remainingIndices allEvents seen).length)).Nodup :=
      (List.take_sublist _ _).nodup hshufnd
    have hFmem : ∀ i ∈ (shuf callIdx (remainingIndices allEvents seen)).take
        (min (5 - sel.length) (remainingIndices allEvents seen).length),
        i ∈ remainingIndices allEvents seen := by
      intro i hi
      exact ((hperm callIdx _).mem_iff).mp ((List.take_sublist _ _).subset hi)
    have hmapnd : ((((shuf callIdx (remainingIndices allEvents seen)).take
        (min (5 - sel.length) (remainingIndices allEvents seen).length)).map
          (fun i => allEvents.getD i default)).map keyFor).Nodup := by
      rw [List.map_map]
      refine List.Nodup.map_on ?_ hFnodup
      intro x hx y hy hxy
      have hx2 := remainingIndices_mem allEvents seen x (hFmem x hx)
      have hy2 := remainingIndices_mem allEvents seen y (hFmem y hy)
      exact keyFor_getD_inj allEvents hnodup x y hx2.1 hy2.1 hxy
    constructor
    · simp only [List.length_append, List.length_map, List.length_take]
      omega
    · simp only [List.map_append]
      refine hnd.append hmapnd ?_
      intro a ha hb
      obtain ⟨e, he, hae⟩ := List.mem_map.mp ha
      rw [List.map_map] at hb
      obtain ⟨i, hi, hkey⟩ := List.mem_map.mp hb
      have hnotseen := (remainingIndices_mem allEvents seen i (hFmem i hi)).2
      apply hnotseen
      rw [show keyFor (allEvents.getD i default) = a from hkey, ← hae]
      exact hsub e he
  · exact ⟨h5, hnd⟩

/-- C1 (amended): for every input event list containing no two events with
the same (year, text) pair, and every outcome of the shuffles,
`selectEventsByEra` returns at most 5 events, containing no two events with
the same (year, text) pair, sorted ascending by year.  (On inputs that
themselves contain a duplicated pair the fill pass can select the
duplicate twice, see the counterexample.) -/
theorem eraSelection_spec (shuf : ShuffleOracle)
    (hperm : ∀ i l, (shuf i l).Perm l) (allEvents : List Event)
    (hnodup : (allEvents.map keyFor).Nodup) :
    (selectEventsByEra shuf allEvents).length ≤ 5 ∧
    ((selectEventsByEra shuf allEvents).map keyFor).Nodup ∧
    List.Pairwise (fun a b => a.year ≤ b.year)
      (selectEventsByEra shuf allEvents) := by
  simp only [selectEventsByEra]
  split_ifs with hempty
  · simp
  · have hpass := eraPassLoop_inv shuf allEvents eras 0 [] []
      (by norm_num) (by simp) (by simp)
    have hfill := fillPass_inv shuf hperm allEvents hnodup
      (eraPassLoop shuf allEvents eras 0 [] []).1
      (eraPassLoop shuf allEvents eras 0 [] []).2.1
      (eraPassLoop shuf allEvents eras 0 [] []).2.2
      hpass.1 hpass.2.1 hpass.2.2.1
    refine ⟨?_, ?_, sortByYear_sorted _⟩
    · rw [(sortByYear_perm _).length_eq]
      exact hfill.1
    · rw [List.Perm.nodup_iff (List.Perm.map keyFor (sortByYear_perm _))]
      exact hfill.2

/-- C1 counterexample: on the input `[{100,"a"}, {100,"b"}, {100,"b"}]`,
with the identity permutation as each shuffle's outcome, the era selection
returns `{100,"b"}` twice — the fill pass selects both copies of a
not-yet-seen duplicated event, so the output has two events with the same
(year, text) pair. -/
theorem eraSelection_duplicate_counterexample :
    ¬ ((selectEventsByEra idShuf dupInput).map keyFor).Nodup := by
  decide

/-- Witness for C1 (amended): the identity oracle is a permutation and on
the duplicate-free `cleanInput` the selection satisfies all three
properties. -/
theorem eraSelection_spec_witness :
    (selectEventsByEra idShuf cleanInput).length ≤ 5 ∧
    ((selectEventsByEra idShuf cleanInput).map keyFor).Nodup ∧
    List.Pairwise (fun a b => a.year ≤ b.year)
      (selectEventsByEra idShuf cleanInput) :=
  eraSelection_spec idShuf (fun _ l => List.Perm.refl l) cleanInput (by decide)
